import Mathlib

/-!
Verification development for the trino-iceberg-maintenance repository.

The repository contains two variants of the maintenance script:
  * `trino_iceberg_maintenance/__main__.py` — the variant exercised by the
    test suite ("tested variant");
  * `trino_iceberg_maintenance.py` — a standalone variant ("non-test
    variant") whose due-check comparison is inverted.

We embed the tested variant's `MaintenanceTask.execute` as a function that,
given an environment describing which engine commands succeed, produces the
result (success, or a `MaintenanceTaskException` carrying the task's policy)
together with the ordered trace of commands issued, each paired with whether
it succeeded.  Timestamps are modelled as integers counting microseconds
(Python `datetime` has microsecond resolution); `timedelta(days = d)` is
`d * 86400000000` microseconds.  The two wall-clock samples inside `execute`
occur in the same cycle and are modelled by a single `now` parameter.
SQL text issued to the engine is abstracted to a `Command` value carrying
exactly the data interpolated into the statement; for `ANALYZE` the optional
`WITH (columns = ARRAY[...])` clause is rendered as the source renders it
(modulo the surrounding `dedent` whitespace).
-/

/-- The `MaintenanceProperties` named tuple of
`trino_iceberg_maintenance/__main__.py` (lines 81-97); field order follows
the source. -/
structure MaintenanceProperties where
  table_name : String
  should_analyze : Bool
  last_analyzed_on : Option Int
  days_to_analyze : Int
  columns_to_analyze : Option (List String)
  should_optimize : Bool
  last_optimized_on : Option Int
  days_to_optimize : Int
  should_expire_snapshots : Bool
  retention_days_snapshots : Int
  should_remove_orphan_files : Bool
  retention_days_orphan_files : Int
deriving DecidableEq

/-- `datetime.timedelta(days = d)` in microseconds. -/
def timedelta_days (d : Int) : Int := d * 86400000000

/-- The commands `MaintenanceTask.execute` issues through `cur.execute`,
carrying the data interpolated into each statement. -/
inductive Command where
  | remove_orphan_files (table_name : String) (retention_days : Int)
  | expire_snapshots (table_name : String) (retention_days : Int)
  | optimize (table_name : String)
  | analyze (table_name : String) (with_columns : String)
  | update_last_optimized_on (table_name : String)
  | update_last_analyzed_on (table_name : String)
deriving DecidableEq

/-- `MaintenanceTaskException` (lines 100-107): wraps the originating
policy; the message defaults as in the source. -/
structure MaintenanceTaskException where
  maintenance_properties : MaintenanceProperties
  message : String := "An exception occurred while running maintenance tasks"
deriving DecidableEq

/-- The optimize due-check of the tested variant, inline at
`__main__.py` lines 159-165: `should_optimize and (not last_optimized_on or
last_optimized_on + timedelta(days=days_to_optimize) <= now())`.
(A Python `datetime` is always truthy, so `not last_optimized_on` is
exactly "the watermark is absent".) -/
def optimize_due (p : MaintenanceProperties) (now : Int) : Bool :=
  p.should_optimize &&
    (match p.last_optimized_on with
     | none => true
     | some t => decide (t + timedelta_days p.days_to_optimize ≤ now))

/-- The analyze due-check of the tested variant, inline at
`__main__.py` lines 178-184. -/
def analyze_due (p : MaintenanceProperties) (now : Int) : Bool :=
  p.should_analyze &&
    (match p.last_analyzed_on with
     | none => true
     | some t => decide (t + timedelta_days p.days_to_analyze ≤ now))

/-- The optimize due-check of the non-test variant, inline at
`trino_iceberg_maintenance.py` lines 121-127: identical except the
comparison is `... > now()`. -/
def optimize_due_nontest (p : MaintenanceProperties) (now : Int) : Bool :=
  p.should_optimize &&
    (match p.last_optimized_on with
     | none => true
     | some t => decide (t + timedelta_days p.days_to_optimize > now))

/-- The analyze due-check of the non-test variant, inline at
`trino_iceberg_maintenance.py` lines 140-145. -/
def analyze_due_nontest (p : MaintenanceProperties) (now : Int) : Bool :=
  p.should_analyze &&
    (match p.last_analyzed_on with
     | none => true
     | some t => decide (t + timedelta_days p.days_to_analyze > now))

/-- A single-quote character, for rendering quoted column names. -/
def squote : String := String.singleton (Char.ofNat 39)

/-- `f"'{x}'"` from `__main__.py` line 187. -/
def quote_col (x : String) : String := squote ++ x ++ squote

/-- The `with_columns` clause of `__main__.py` lines 186-187:
empty when `columns_to_analyze` is `None` or empty, otherwise
`WITH (columns = ARRAY['c1', 'c2', ...])` (surrounding whitespace from the
f-string and `dedent` is not modelled). -/
def with_columns_clause (columns_to_analyze : Option (List String)) : String :=
  match columns_to_analyze with
  | none => ""
  | some cols =>
    if cols.length = 0 then ""
    else "WITH (columns = ARRAY[" ++
      String.intercalate ", " (cols.map quote_col) ++ "])"

/-- The sequence of commands `execute` attempts for a policy `p` at time
`now`, in the source's straight-line order (`__main__.py` lines 139-196):
orphan removal, snapshot expiry, optimize followed by its watermark update,
analyze followed by its watermark update — each block guarded by its
condition. -/
def due_commands (now : Int) (p : MaintenanceProperties) : List Command :=
  (if p.should_remove_orphan_files then
    [Command.remove_orphan_files p.table_name p.retention_days_orphan_files]
   else []) ++
  (if p.should_expire_snapshots then
    [Command.expire_snapshots p.table_name p.retention_days_snapshots]
   else []) ++
  (if optimize_due p now then
    [Command.optimize p.table_name,
     Command.update_last_optimized_on p.table_name]
   else []) ++
  (if analyze_due p now then
    [Command.analyze p.table_name (with_columns_clause p.columns_to_analyze),
     Command.update_last_analyzed_on p.table_name]
   else [])

/-- The environment of one task execution: whether
`self.connection_factory()` succeeds, and which engine commands succeed. -/
structure ExecEnv where
  connectOk : Bool
  cmdOk : Command → Bool

/-- Issue commands in order, stopping at the first failure (a raised
exception aborts the remaining statements of the `try` block).  Returns
whether all commands succeeded, and the trace of attempted commands paired
with their outcomes. -/
def run_commands (cmdOk : Command → Bool) : List Command → Bool × List (Command × Bool)
  | [] => (true, [])
  | c :: cs =>
    if cmdOk c then
      let r := run_commands cmdOk cs
      (r.1, (c, true) :: r.2)
    else
      (false, [(c, false)])

/-- `MaintenanceTask.execute` of the tested variant (`__main__.py` lines
119-198): open a connection, issue the due commands in order, and wrap any
failure in a `MaintenanceTaskException` carrying the task's policy. -/
def MaintenanceTask.execute (env : ExecEnv) (now : Int) (p : MaintenanceProperties) :
    Except MaintenanceTaskException Unit × List (Command × Bool) :=
  if env.connectOk then
    let r := run_commands env.cmdOk (due_commands now p)
    ((if r.1 then Except.ok () else Except.error { maintenance_properties := p }), r.2)
  else
    (Except.error { maintenance_properties := p }, [])

/-- Whether a task execution succeeds. -/
def task_succeeds (env : ExecEnv) (now : Int) (p : MaintenanceProperties) : Bool :=
  match (MaintenanceTask.execute env now p).1 with
  | Except.ok _ => true
  | Except.error _ => false

/-- `run_maintenance` of the tested variant (`__main__.py` lines 58-78):
runs one task per fetched policy row, catches each task's
`MaintenanceTaskException` in the `as_completed` loop, and logs it.  The
observable outcome is the collection of caught exceptions; the function
itself returns `None` in the source. -/
def run_maintenance (env : ExecEnv) (now : Int) (rows : List MaintenanceProperties) :
    List MaintenanceTaskException :=
  rows.filterMap fun row =>
    match (MaintenanceTask.execute env now row).1 with
    | Except.ok _ => none
    | Except.error e => some e

/-- Number of rows whose task succeeds in a cycle (not computed anywhere by
the source; used to compare the dispatcher's output with the specified
report). -/
def count_succeeded (env : ExecEnv) (now : Int) (rows : List MaintenanceProperties) : Nat :=
  (rows.filter fun r => task_succeeds env now r).length

/-- Effect of one issued command on the maintenance table: only the two
`UPDATE ... SET last_*_on = current_timestamp(6) WHERE table_name = ...`
statements touch it, and only when the statement succeeded.  `db_now` is the
engine-side `current_timestamp(6)` at write time. -/
def apply_command (db_now : Int) (store : List MaintenanceProperties)
    (cb : Command × Bool) : List MaintenanceProperties :=
  if cb.2 then
    match cb.1 with
    | Command.update_last_optimized_on t =>
        store.map fun r =>
          if r.table_name = t then { r with last_optimized_on := some db_now } else r
    | Command.update_last_analyzed_on t =>
        store.map fun r =>
          if r.table_name = t then { r with last_analyzed_on := some db_now } else r
    | _ => store
  else store

/-- Effect of a whole trace on the maintenance table. -/
def apply_trace (db_now : Int) (store : List MaintenanceProperties)
    (tr : List (Command × Bool)) : List MaintenanceProperties :=
  tr.foldl (apply_command db_now) store

/-- Effect of one issued command on a single policy row. -/
def row_step (db_now : Int) (r : MaintenanceProperties)
    (cb : Command × Bool) : MaintenanceProperties :=
  if cb.2 then
    match cb.1 with
    | Command.update_last_optimized_on t =>
        if r.table_name = t then { r with last_optimized_on := some db_now } else r
    | Command.update_last_analyzed_on t =>
        if r.table_name = t then { r with last_analyzed_on := some db_now } else r
    | _ => r
  else r

/-- Effect of a trace on a single policy row. -/
def row_apply (db_now : Int) (tr : List (Command × Bool))
    (r : MaintenanceProperties) : MaintenanceProperties :=
  tr.foldl (row_step db_now) r

/-- Whether the trace contains a successful watermark update of
`last_optimized_on` for table `tn`. -/
def writes_opt (tn : String) (tr : List (Command × Bool)) : Bool :=
  tr.any fun cb =>
    cb.2 && (match cb.1 with
             | Command.update_last_optimized_on t => t == tn
             | _ => false)

/-- Whether the trace contains a successful watermark update of
`last_analyzed_on` for table `tn`. -/
def writes_anl (tn : String) (tr : List (Command × Bool)) : Bool :=
  tr.any fun cb =>
    cb.2 && (match cb.1 with
             | Command.update_last_analyzed_on t => t == tn
             | _ => false)

/-- Head check for `update_after_action_aux`: a watermark update may only
appear immediately after the matching maintenance action on the same
table. -/
def action_before_update (c : Command) (prev : Option Command) : Bool :=
  match c, prev with
  | Command.update_last_optimized_on s, some (Command.optimize t) => s == t
  | Command.update_last_optimized_on _, _ => false
  | Command.update_last_analyzed_on s, some (Command.analyze t _) => s == t
  | Command.update_last_analyzed_on _, _ => false
  | _, _ => true

/-- Every watermark update in the list is immediately preceded by the
matching maintenance action on the same table (`prev` is the element before
the head, if any). -/
def update_after_action_aux (prev : Option Command) : List Command → Bool
  | [] => true
  | c :: rest => action_before_update c prev && update_after_action_aux (some c) rest

/-- Head check for `updates_gated_aux`: a watermark update may only appear
immediately after the matching action on the same table, and that action
must have succeeded. -/
def action_success_before_update (c : Command) (prev : Option (Command × Bool)) : Bool :=
  match c, prev with
  | Command.update_last_optimized_on s, some (Command.optimize t, pb) => (s == t) && pb
  | Command.update_last_optimized_on _, _ => false
  | Command.update_last_analyzed_on s, some (Command.analyze t _, pb) => (s == t) && pb
  | Command.update_last_analyzed_on _, _ => false
  | _, _ => true

/-- Every watermark update in the trace is issued immediately after the
matching maintenance action, and only when that action succeeded. -/
def updates_gated_aux (prev : Option (Command × Bool)) : List (Command × Bool) → Bool
  | [] => true
  | cb :: rest => action_success_before_update cb.1 prev && updates_gated_aux (some cb) rest

/-- `updates_gated_aux` starting with no predecessor. -/
def updates_gated (tr : List (Command × Bool)) : Bool :=
  updates_gated_aux none tr

example : timedelta_days 2 = 172800000000 := by decide
example : with_columns_clause (some []) = "" := by decide
example : with_columns_clause none = "" := by decide

/-! ### Basic facts about `run_commands` -/

theorem run_commands_char (cmdOk : Command → Bool) (cmds : List Command) :
    run_commands cmdOk cmds =
      (cmds.all cmdOk,
       (cmds.takeWhile cmdOk).map (fun c => (c, true)) ++
         (match cmds.dropWhile cmdOk with
          | [] => []
          | c :: _ => [(c, false)])) := by
  induction cmds with
  | nil => rfl
  | cons c cs ih =>
    by_cases h : cmdOk c = true
    · simp [run_commands, h, ih, List.takeWhile_cons, List.dropWhile_cons, List.all_cons]
    · simp only [Bool.not_eq_true] at h
      simp [run_commands, h, List.takeWhile_cons, List.dropWhile_cons, List.all_cons]

theorem run_commands_ok_iff (cmdOk : Command → Bool) (cmds : List Command) :
    (run_commands cmdOk cmds).1 = cmds.all cmdOk := by
  rw [run_commands_char]

theorem run_commands_all_ok (cmdOk : Command → Bool) :
    ∀ cmds : List Command, cmds.all cmdOk = true →
      run_commands cmdOk cmds = (true, cmds.map fun c => (c, true))
  | [], _ => rfl
  | c :: cs, h => by
    rw [List.all_cons, Bool.and_eq_true] at h
    simp [run_commands, h.1, run_commands_all_ok cmdOk cs h.2]

theorem map_fst_pair_true (l : List Command) :
    (l.map fun c => (c, true)).map Prod.fst = l := by
  induction l with
  | nil => rfl
  | cons c cs ih => simp [ih]

theorem run_commands_fst_le (cmdOk : Command → Bool) (cmds : List Command) :
    (run_commands cmdOk cmds).2.map Prod.fst <+: cmds := by
  rw [run_commands_char]
  have hsplit : cmds.takeWhile cmdOk ++ cmds.dropWhile cmdOk = cmds :=
    List.takeWhile_append_dropWhile cmdOk cmds
  rcases h : cmds.dropWhile cmdOk with _ | ⟨c, cs⟩
  · rw [h] at hsplit
    refine ⟨[], ?_⟩
    rw [List.map_append, map_fst_pair_true]
    simpa using hsplit
  · rw [h] at hsplit
    refine ⟨cs, ?_⟩
    rw [List.map_append, map_fst_pair_true]
    simp only [List.map_cons, List.map_nil, List.append_assoc, List.singleton_append]
    exact hsplit

theorem mem_run_commands_ok (cmdOk : Command → Bool) :
    ∀ (cmds : List Command) (cb : Command × Bool),
      cb ∈ (run_commands cmdOk cmds).2 → cb.2 = cmdOk cb.1
  | [], _, h => by simp [run_commands] at h
  | c :: cs, cb, h => by
    by_cases hc : cmdOk c = true
    · simp only [run_commands, hc, if_pos] at h
      rcases List.mem_cons.mp h with h | h
      · subst h; exact hc.symm
      · exact mem_run_commands_ok cmdOk cs cb h
    · simp only [Bool.not_eq_true] at hc
      simp only [run_commands, hc] at h
      simp only [Bool.false_eq_true, if_false, List.mem_singleton] at h
      subst h; exact hc.symm

theorem updates_gated_run (cmdOk : Command → Bool) :
    ∀ (cmds : List Command) (prev : Option Command),
      update_after_action_aux prev cmds = true →
      updates_gated_aux (prev.map fun c => (c, true)) (run_commands cmdOk cmds).2 = true
  | [], _, _ => rfl
  | c :: cs, prev, h => by
    rw [update_after_action_aux, Bool.and_eq_true] at h
    obtain ⟨h1, h2⟩ := h
    have hhead : action_success_before_update c (prev.map fun c0 => (c0, true)) = true := by
      cases c <;> rcases prev with _ | p <;> (try cases p) <;>
        simp_all [action_before_update, action_success_before_update]
    by_cases hc : cmdOk c = true
    · simp only [run_commands, hc, if_pos]
      rw [updates_gated_aux, Bool.and_eq_true]
      exact ⟨hhead, updates_gated_run cmdOk cs (some c) h2⟩
    · simp only [Bool.not_eq_true] at hc
      simp only [run_commands, hc, Bool.false_eq_true, if_false]
      rw [updates_gated_aux, Bool.and_eq_true]
      exact ⟨hhead, rfl⟩

/-! ### Membership and shape of `due_commands` -/

theorem mem_dc_orphan (now : Int) (p : MaintenanceProperties) (t : String) (rd : Int) :
    Command.remove_orphan_files t rd ∈ due_commands now p ↔
      t = p.table_name ∧ rd = p.retention_days_orphan_files ∧
        p.should_remove_orphan_files = true := by
  unfold due_commands
  by_cases h1 : p.should_remove_orphan_files = true <;>
  by_cases h2 : p.should_expire_snapshots = true <;>
  by_cases h3 : optimize_due p now = true <;>
  by_cases h4 : analyze_due p now = true <;>
  simp_all

theorem mem_dc_expire (now : Int) (p : MaintenanceProperties) (t : String) (rd : Int) :
    Command.expire_snapshots t rd ∈ due_commands now p ↔
      t = p.table_name ∧ rd = p.retention_days_snapshots ∧
        p.should_expire_snapshots = true := by
  unfold due_commands
  by_cases h1 : p.should_remove_orphan_files = true <;>
  by_cases h2 : p.should_expire_snapshots = true <;>
  by_cases h3 : optimize_due p now = true <;>
  by_cases h4 : analyze_due p now = true <;>
  simp_all

theorem mem_dc_optimize (now : Int) (p : MaintenanceProperties) (t : String) :
    Command.optimize t ∈ due_commands now p ↔
      t = p.table_name ∧ optimize_due p now = true := by
  unfold due_commands
  by_cases h1 : p.should_remove_orphan_files = true <;>
  by_cases h2 : p.should_expire_snapshots = true <;>
  by_cases h3 : optimize_due p now = true <;>
  by_cases h4 : analyze_due p now = true <;>
  simp_all

theorem mem_dc_update_opt (now : Int) (p : MaintenanceProperties) (t : String) :
    Command.update_last_optimized_on t ∈ due_commands now p ↔
      t = p.table_name ∧ optimize_due p now = true := by
  unfold due_commands
  by_cases h1 : p.should_remove_orphan_files = true <;>
  by_cases h2 : p.should_expire_snapshots = true <;>
  by_cases h3 : optimize_due p now = true <;>
  by_cases h4 : analyze_due p now = true <;>
  simp_all

theorem mem_dc_analyze (now : Int) (p : MaintenanceProperties) (t : String) (w : String) :
    Command.analyze t w ∈ due_commands now p ↔
      t = p.table_name ∧ w = with_columns_clause p.columns_to_analyze ∧
        analyze_due p now = true := by
  unfold due_commands
  by_cases h1 : p.should_remove_orphan_files = true <;>
  by_cases h2 : p.should_expire_snapshots = true <;>
  by_cases h3 : optimize_due p now = true <;>
  by_cases h4 : analyze_due p now = true <;>
  simp_all

theorem mem_dc_update_anl (now : Int) (p : MaintenanceProperties) (t : String) :
    Command.update_last_analyzed_on t ∈ due_commands now p ↔
      t = p.table_name ∧ analyze_due p now = true := by
  unfold due_commands
  by_cases h1 : p.should_remove_orphan_files = true <;>
  by_cases h2 : p.should_expire_snapshots = true <;>
  by_cases h3 : optimize_due p now = true <;>
  by_cases h4 : analyze_due p now = true <;>
  simp_all

theorem due_commands_update_after_action (now : Int) (p : MaintenanceProperties) :
    update_after_action_aux none (due_commands now p) = true := by
  unfold due_commands
  by_cases h1 : p.should_remove_orphan_files = true <;>
  by_cases h2 : p.should_expire_snapshots = true <;>
  by_cases h3 : optimize_due p now = true <;>
  by_cases h4 : analyze_due p now = true <;>
  simp_all [update_after_action_aux, action_before_update]

/-- The full command order of one task: orphan removal, snapshot expiry,
optimize, its watermark update, analyze, its watermark update. -/
def full_order (p : MaintenanceProperties) : List Command :=
  [Command.remove_orphan_files p.table_name p.retention_days_orphan_files,
   Command.expire_snapshots p.table_name p.retention_days_snapshots,
   Command.optimize p.table_name,
   Command.update_last_optimized_on p.table_name,
   Command.analyze p.table_name (with_columns_clause p.columns_to_analyze),
   Command.update_last_analyzed_on p.table_name]

theorem ite_sublist (b : Prop) [Decidable b] (l : List Command) :
    List.Sublist (if b then l else []) l := by
  split
  · exact List.Sublist.refl l
  · exact List.nil_sublist l

theorem due_commands_sublist_full (now : Int) (p : MaintenanceProperties) :
    List.Sublist (due_commands now p) (full_order p) :=
  (((ite_sublist _ _).append (ite_sublist _ _)).append (ite_sublist _ _)).append
    (ite_sublist _ _)

/-! ### Facts about `MaintenanceTask.execute` -/

theorem execute_trace_fst_le (env : ExecEnv) (now : Int) (p : MaintenanceProperties) :
    (MaintenanceTask.execute env now p).2.map Prod.fst <+: due_commands now p := by
  by_cases hc : env.connectOk = true
  · simp only [MaintenanceTask.execute, hc, if_pos]
    exact run_commands_fst_le _ _
  · simp only [Bool.not_eq_true] at hc
    simp [MaintenanceTask.execute, hc]

theorem execute_mem_dc (env : ExecEnv) (now : Int) (p : MaintenanceProperties)
    (c : Command) (h : c ∈ (MaintenanceTask.execute env now p).2.map Prod.fst) :
    c ∈ due_commands now p :=
  (execute_trace_fst_le env now p).sublist.subset h

theorem execute_trace_ok (env : ExecEnv) (now : Int) (p : MaintenanceProperties)
    (hc : env.connectOk = true) (hok : ∀ c, env.cmdOk c = true) :
    (MaintenanceTask.execute env now p).2 = (due_commands now p).map fun c => (c, true) := by
  have hall : (due_commands now p).all env.cmdOk = true :=
    List.all_eq_true.mpr fun c _ => hok c
  simp [MaintenanceTask.execute, hc, run_commands_all_ok _ _ hall]

theorem execute_gated (env : ExecEnv) (now : Int) (p : MaintenanceProperties) :
    updates_gated (MaintenanceTask.execute env now p).2 = true := by
  by_cases hc : env.connectOk = true
  · simp only [MaintenanceTask.execute, hc, if_pos]
    exact updates_gated_run env.cmdOk (due_commands now p) none
      (due_commands_update_after_action now p)
  · simp only [Bool.not_eq_true] at hc
    simp [MaintenanceTask.execute, hc, updates_gated, updates_gated_aux]

theorem execute_error_payload (env : ExecEnv) (now : Int) (p : MaintenanceProperties)
    (e : MaintenanceTaskException)
    (h : (MaintenanceTask.execute env now p).1 = Except.error e) :
    e = { maintenance_properties := p } := by
  by_cases hc : env.connectOk = true
  · simp only [MaintenanceTask.execute, hc, if_pos] at h
    by_cases hr : (run_commands env.cmdOk (due_commands now p)).1 = true
    · simp [hr] at h
    · simp only [Bool.not_eq_true] at hr
      simp only [hr, Bool.false_eq_true, if_false, Except.error.injEq] at h
      exact h.symm
  · simp only [Bool.not_eq_true] at hc
    simp only [MaintenanceTask.execute, hc, Bool.false_eq_true, if_false,
      Except.error.injEq] at h
    exact h.symm

theorem execute_ok_or_error (env : ExecEnv) (now : Int) (p : MaintenanceProperties) :
    (MaintenanceTask.execute env now p).1 = Except.ok () ∨
      (MaintenanceTask.execute env now p).1 =
        Except.error { maintenance_properties := p } := by
  by_cases hc : env.connectOk = true
  · simp only [MaintenanceTask.execute, hc, if_pos]
    by_cases hr : (run_commands env.cmdOk (due_commands now p)).1 = true
    · left; simp [hr]
    · right
      simp only [Bool.not_eq_true] at hr
      simp [hr]
  · simp only [Bool.not_eq_true] at hc
    right
    simp [MaintenanceTask.execute, hc]

/-! ### Facts about the policy-store semantics -/

theorem apply_command_eq_map (db_now : Int) (store : List MaintenanceProperties)
    (cb : Command × Bool) :
    apply_command db_now store cb = store.map fun r => row_step db_now r cb := by
  rcases cb with ⟨c, b⟩
  cases b
  · simp [apply_command, row_step]
  · cases c <;> simp [apply_command, row_step]

theorem apply_trace_map (db_now : Int) :
    ∀ (tr : List (Command × Bool)) (store : List MaintenanceProperties),
      apply_trace db_now store tr = store.map (row_apply db_now tr)
  | [], store => by
    have h : row_apply db_now [] = fun r : MaintenanceProperties => r :=
      funext fun r => rfl
    rw [apply_trace, List.foldl_nil, h, List.map_id']
  | cb :: tr', store => by
    rw [apply_trace, List.foldl_cons]
    have ih := apply_trace_map db_now tr' (apply_command db_now store cb)
    rw [apply_trace] at ih
    rw [ih, apply_command_eq_map, List.map_map]
    rfl

theorem apply_trace_length (db_now : Int) (tr : List (Command × Bool))
    (store : List MaintenanceProperties) :
    (apply_trace db_now store tr).length = store.length := by
  rw [apply_trace_map, List.length_map]

theorem row_step_other (db_now : Int) (tn : String) (r : MaintenanceProperties)
    (cb : Command × Bool)
    (hopt : ∀ t, cb.1 = Command.update_last_optimized_on t → t = tn)
    (hanl : ∀ t, cb.1 = Command.update_last_analyzed_on t → t = tn)
    (hne : r.table_name ≠ tn) :
    row_step db_now r cb = r := by
  rcases cb with ⟨c, b⟩
  cases b
  · simp [row_step]
  · cases c with
    | update_last_optimized_on t0 =>
      have ht : t0 = tn := hopt t0 rfl
      subst ht
      simp [row_step, hne]
    | update_last_analyzed_on t0 =>
      have ht : t0 = tn := hanl t0 rfl
      subst ht
      simp [row_step, hne]
    | remove_orphan_files t0 rd => simp [row_step]
    | expire_snapshots t0 rd => simp [row_step]
    | optimize t0 => simp [row_step]
    | analyze t0 w => simp [row_step]

theorem row_apply_other (db_now : Int) (tn : String) :
    ∀ (tr : List (Command × Bool)) (r : MaintenanceProperties),
      (∀ t b, (Command.update_last_optimized_on t, b) ∈ tr → t = tn) →
      (∀ t b, (Command.update_last_analyzed_on t, b) ∈ tr → t = tn) →
      r.table_name ≠ tn →
      row_apply db_now tr r = r
  | [], r, _, _, _ => rfl
  | cb :: tr', r, hopt, hanl, hne => by
    rw [row_apply, List.foldl_cons]
    have hstep : row_step db_now r cb = r := by
      apply row_step_other db_now tn r cb _ _ hne
      · intro t h
        exact hopt t cb.2 (by rw [← h]; exact List.mem_cons_self _ _)
      · intro t h
        exact hanl t cb.2 (by rw [← h]; exact List.mem_cons_self _ _)
    rw [hstep]
    exact row_apply_other db_now tn tr' r
      (fun t b h => hopt t b (List.mem_cons_of_mem _ h))
      (fun t b h => hanl t b (List.mem_cons_of_mem _ h)) hne

theorem writes_opt_cons (tn : String) (c : Command) (b : Bool)
    (tr : List (Command × Bool)) :
    writes_opt tn ((c, b) :: tr) =
      ((b && (match c with
              | Command.update_last_optimized_on t => t == tn
              | _ => false)) || writes_opt tn tr) := by
  simp [writes_opt, List.any_cons]

theorem writes_anl_cons (tn : String) (c : Command) (b : Bool)
    (tr : List (Command × Bool)) :
    writes_anl tn ((c, b) :: tr) =
      ((b && (match c with
              | Command.update_last_analyzed_on t => t == tn
              | _ => false)) || writes_anl tn tr) := by
  simp [writes_anl, List.any_cons]

theorem row_apply_own (db_now : Int) (tn : String) :
    ∀ (tr : List (Command × Bool)) (r : MaintenanceProperties),
      (∀ t b, (Command.update_last_optimized_on t, b) ∈ tr → t = tn) →
      (∀ t b, (Command.update_last_analyzed_on t, b) ∈ tr → t = tn) →
      r.table_name = tn →
      row_apply db_now tr r =
        { r with
          last_optimized_on :=
            if writes_opt tn tr then some db_now else r.last_optimized_on,
          last_analyzed_on :=
            if writes_anl tn tr then some db_now else r.last_analyzed_on }
  | [], r, _, _, _ => by
    simp [row_apply, writes_opt, writes_anl]
  | cb :: tr', r, hopt, hanl, htn => by
    rcases cb with ⟨c, b⟩
    rw [row_apply, List.foldl_cons]
    have hopt' : ∀ t b0, (Command.update_last_optimized_on t, b0) ∈ tr' → t = tn :=
      fun t b0 h => hopt t b0 (List.mem_cons_of_mem _ h)
    have hanl' : ∀ t b0, (Command.update_last_analyzed_on t, b0) ∈ tr' → t = tn :=
      fun t b0 h => hanl t b0 (List.mem_cons_of_mem _ h)
    rw [writes_opt_cons, writes_anl_cons]
    cases b with
    | false =>
      have hstep : row_step db_now r (c, false) = r := by simp [row_step]
      rw [hstep, ← row_apply,
        row_apply_own db_now tn tr' r hopt' hanl' htn]
      simp
    | true =>
      cases c with
      | update_last_optimized_on t0 =>
        have ht : t0 = tn := hopt t0 true (List.mem_cons_self _ _)
        have hname : r.table_name = t0 := by rw [htn, ht]
        have hstep : row_step db_now r (Command.update_last_optimized_on t0, true) =
            { r with last_optimized_on := some db_now } := by
          simp [row_step, hname]
        rw [hstep, ← row_apply,
          row_apply_own db_now tn tr' { r with last_optimized_on := some db_now }
            hopt' hanl' htn]
        simp [ht]
      | update_last_analyzed_on t0 =>
        have ht : t0 = tn := hanl t0 true (List.mem_cons_self _ _)
        have hname : r.table_name = t0 := by rw [htn, ht]
        have hstep : row_step db_now r (Command.update_last_analyzed_on t0, true) =
            { r with last_analyzed_on := some db_now } := by
          simp [row_step, hname]
        rw [hstep, ← row_apply,
          row_apply_own db_now tn tr' { r with last_analyzed_on := some db_now }
            hopt' hanl' htn]
        simp [ht]
      | remove_orphan_files t0 rd =>
        have hstep : row_step db_now r (Command.remove_orphan_files t0 rd, true) = r := by
          simp [row_step]
        rw [hstep, ← row_apply,
          row_apply_own db_now tn tr' r hopt' hanl' htn]
        simp
      | expire_snapshots t0 rd =>
        have hstep : row_step db_now r (Command.expire_snapshots t0 rd, true) = r := by
          simp [row_step]
        rw [hstep, ← row_apply,
          row_apply_own db_now tn tr' r hopt' hanl' htn]
        simp
      | optimize t0 =>
        have hstep : row_step db_now r (Command.optimize t0, true) = r := by
          simp [row_step]
        rw [hstep, ← row_apply,
          row_apply_own db_now tn tr' r hopt' hanl' htn]
        simp
      | analyze t0 w =>
        have hstep : row_step db_now r (Command.analyze t0 w, true) = r := by
          simp [row_step]
        rw [hstep, ← row_apply,
          row_apply_own db_now tn tr' r hopt' hanl' htn]
        simp

theorem run_commands_dropLast_true (cmdOk : Command → Bool) (cmds : List Command) :
    ∀ cb ∈ (run_commands cmdOk cmds).2.dropLast, cb.2 = true := by
  rw [run_commands_char]
  rcases h : cmds.dropWhile cmdOk with _ | ⟨c, cs⟩
  · intro cb hcb
    rw [List.append_nil] at hcb
    have hmem := List.dropLast_subset _ hcb
    obtain ⟨x, _, hx⟩ := List.mem_map.mp hmem
    rw [← hx]
  · intro cb hcb
    rw [List.dropLast_concat] at hcb
    obtain ⟨x, _, hx⟩ := List.mem_map.mp hcb
    rw [← hx]

theorem false_mem_is_last {tr : List (Command × Bool)}
    (hdl : ∀ cb ∈ tr.dropLast, cb.2 = true) (cb : Command × Bool)
    (hmem : cb ∈ tr) (hf : cb.2 = false) : tr.getLast? = some cb := by
  have hne : tr ≠ [] := List.ne_nil_of_mem hmem
  rw [← List.dropLast_append_getLast hne] at hmem
  rcases List.mem_append.mp hmem with h | h
  · rw [hdl cb h] at hf
    exact absurd hf (by simp)
  · rw [List.mem_singleton] at h
    rw [h, List.getLast?_eq_getLast tr hne]

theorem execute_dropLast_true (env : ExecEnv) (now : Int) (p : MaintenanceProperties) :
    ∀ cb ∈ (MaintenanceTask.execute env now p).2.dropLast, cb.2 = true := by
  by_cases hc : env.connectOk = true
  · simp only [MaintenanceTask.execute, hc, if_pos]
    exact run_commands_dropLast_true env.cmdOk (due_commands now p)
  · simp only [Bool.not_eq_true] at hc
    simp [MaintenanceTask.execute, hc]

theorem execute_upd_opt_mem (env : ExecEnv) (now : Int) (p : MaintenanceProperties)
    (t : String) (b : Bool)
    (h : (Command.update_last_optimized_on t, b) ∈ (MaintenanceTask.execute env now p).2) :
    t = p.table_name ∧ optimize_due p now = true := by
  have hmem : Command.update_last_optimized_on t ∈
      (MaintenanceTask.execute env now p).2.map Prod.fst :=
    List.mem_map.mpr ⟨(Command.update_last_optimized_on t, b), h, rfl⟩
  exact (mem_dc_update_opt now p t).mp (execute_mem_dc env now p _ hmem)

theorem execute_upd_anl_mem (env : ExecEnv) (now : Int) (p : MaintenanceProperties)
    (t : String) (b : Bool)
    (h : (Command.update_last_analyzed_on t, b) ∈ (MaintenanceTask.execute env now p).2) :
    t = p.table_name ∧ analyze_due p now = true := by
  have hmem : Command.update_last_analyzed_on t ∈
      (MaintenanceTask.execute env now p).2.map Prod.fst :=
    List.mem_map.mpr ⟨(Command.update_last_analyzed_on t, b), h, rfl⟩
  exact (mem_dc_update_anl now p t).mp (execute_mem_dc env now p _ hmem)

/-! ### Concrete environments and policies used by witnesses -/

/-- Environment where the connection and every command succeed. -/
def env_all_ok : ExecEnv := { connectOk := true, cmdOk := fun _ => true }

/-- Environment where the `optimize` command fails on table `tA` and
everything else succeeds. -/
def env_fail_tA : ExecEnv :=
  { connectOk := true,
    cmdOk := fun c =>
      match c with
      | Command.optimize t => !(t == "tA")
      | _ => true }

/-- A policy row with every operation enabled and no watermarks. -/
def sample_p : MaintenanceProperties :=
  { table_name := "t1", should_analyze := true, last_analyzed_on := none,
    days_to_analyze := 10, columns_to_analyze := some ["a"],
    should_optimize := true, last_optimized_on := none, days_to_optimize := 10,
    should_expire_snapshots := true, retention_days_snapshots := 7,
    should_remove_orphan_files := true, retention_days_orphan_files := 7 }

/-! ### Claims -/

/-- C1: in the tested variant, for every policy with `should_optimize` set,
the optimize action is executed in a cycle (all engine calls succeeding) iff
`last_optimized_on` is absent or `last_optimized_on + days_to_optimize ≤
now`, with the boundary inclusive (`last_optimized_on = now -
days_to_optimize` counts as due); the analyze due-check is the analogous
condition over `last_analyzed_on` and `days_to_analyze`. -/
theorem C1_optimize_due_check (env : ExecEnv) (now : Int) (p : MaintenanceProperties)
    (hconn : env.connectOk = true) (hok : ∀ c, env.cmdOk c = true)
    (hflag : p.should_optimize = true) :
    (Command.optimize p.table_name ∈
        (MaintenanceTask.execute env now p).2.map Prod.fst ↔
      (p.last_optimized_on = none ∨
        ∃ t, p.last_optimized_on = some t ∧
          t + timedelta_days p.days_to_optimize ≤ now)) ∧
    (∀ d t, p.days_to_optimize = d → p.last_optimized_on = some t →
      t = now - timedelta_days d → optimize_due p now = true) ∧
    (∀ q : MaintenanceProperties, analyze_due q now = true ↔
      (q.should_analyze = true ∧
        (q.last_analyzed_on = none ∨
          ∃ t, q.last_analyzed_on = some t ∧
            t + timedelta_days q.days_to_analyze ≤ now))) := by
  refine ⟨?_, ?_, ?_⟩
  · rw [execute_trace_ok env now p hconn hok, map_fst_pair_true, mem_dc_optimize]
    rcases hl : p.last_optimized_on with _ | t
    · simp [optimize_due, hflag, hl]
    · simp [optimize_due, hflag, hl]
  · intro d t hd hlast ht
    subst hd
    subst ht
    simp only [optimize_due, hflag, hlast, Bool.true_and]
    rw [decide_eq_true_eq]
    omega
  · intro q
    rcases hl : q.last_analyzed_on with _ | t <;>
      by_cases hq : q.should_analyze = true <;>
      simp [analyze_due, hq, hl]

/-- C1 witness: with every command succeeding, `sample_p` (flag set, no
watermark) has the optimize command in its trace. -/
theorem C1_optimize_due_check_witness :
    Command.optimize "t1" ∈
      (MaintenanceTask.execute env_all_ok 0 sample_p).2.map Prod.fst :=
  (C1_optimize_due_check env_all_ok 0 sample_p rfl (fun _ => rfl) rfl).1.mpr
    (Or.inl rfl)

/-- A policy with its optimize watermark present but `should_optimize`
unset: both variants agree it is not due, refuting the unrestricted
inversion claim. -/
def c2_policy : MaintenanceProperties :=
  { table_name := "t1", should_analyze := false, last_analyzed_on := none,
    days_to_analyze := 0, columns_to_analyze := none,
    should_optimize := false, last_optimized_on := some 0, days_to_optimize := 1,
    should_expire_snapshots := false, retention_days_snapshots := 0,
    should_remove_orphan_files := false, retention_days_orphan_files := 0 }

/-- C2 counterexample: for a policy with `should_optimize = false` and a
present watermark, the non-test variant does NOT evaluate optimize as due
exactly when the tested variant evaluates it as not due — both agree it is
not due, even though the watermark is present. -/
theorem C2_counterexample :
    (c2_policy.last_optimized_on).isSome = true ∧
    ¬ (optimize_due_nontest c2_policy 0 = true ↔ optimize_due c2_policy 0 = false) ∧
    optimize_due_nontest c2_policy 0 = optimize_due c2_policy 0 ∧
    optimize_due_nontest c2_policy 0 = false ∧
    optimize_due c2_policy 0 = false := by
  decide

/-- C2 (amended): restricted to policies whose `should_*` flag is set, the
non-test variant's due-check is the inversion of the tested variant's on a
present watermark: it is due exactly when the tested variant says not due;
at the boundary `watermark + interval = now` the non-test variant says not
yet due while the tested variant says due; and the two variants agree when
the watermark is absent (both due).  With the flag unset, both variants
agree the operation is not due, for every watermark value. -/
theorem C2_amended_inversion (p : MaintenanceProperties) (now : Int) :
    (p.should_optimize = true →
      (∀ t, p.last_optimized_on = some t →
        (optimize_due_nontest p now = !(optimize_due p now) ∧
         (t + timedelta_days p.days_to_optimize = now →
           optimize_due_nontest p now = false ∧ optimize_due p now = true))) ∧
      (p.last_optimized_on = none →
        optimize_due_nontest p now = true ∧ optimize_due p now = true)) ∧
    (p.should_analyze = true →
      (∀ t, p.last_analyzed_on = some t →
        (analyze_due_nontest p now = !(analyze_due p now) ∧
         (t + timedelta_days p.days_to_analyze = now →
           analyze_due_nontest p now = false ∧ analyze_due p now = true))) ∧
      (p.last_analyzed_on = none →
        analyze_due_nontest p now = true ∧ analyze_due p now = true)) ∧
    (p.should_optimize = false →
      optimize_due_nontest p now = false ∧ optimize_due p now = false) ∧
    (p.should_analyze = false →
      analyze_due_nontest p now = false ∧ analyze_due p now = false) := by
  refine ⟨?_, ?_, ?_, ?_⟩
  case refine_3 =>
    intro hflag
    exact ⟨by simp [optimize_due_nontest, hflag], by simp [optimize_due, hflag]⟩
  case refine_4 =>
    intro hflag
    exact ⟨by simp [analyze_due_nontest, hflag], by simp [analyze_due, hflag]⟩
  · intro hflag
    constructor
    · intro t hlast
      constructor
      · simp only [optimize_due, optimize_due_nontest, hflag, hlast, Bool.true_and]
        rw [← decide_not]
        exact decide_eq_decide.mpr (by omega)
      · intro hb
        simp only [optimize_due, optimize_due_nontest, hflag, hlast, Bool.true_and]
        constructor
        · rw [decide_eq_false_iff_not]
          omega
        · rw [decide_eq_true_eq]
          omega
    · intro hlast
      simp [optimize_due, optimize_due_nontest, hflag, hlast]
  · intro hflag
    constructor
    · intro t hlast
      constructor
      · simp only [analyze_due, analyze_due_nontest, hflag, hlast, Bool.true_and]
        rw [← decide_not]
        exact decide_eq_decide.mpr (by omega)
      · intro hb
        simp only [analyze_due, analyze_due_nontest, hflag, hlast, Bool.true_and]
        constructor
        · rw [decide_eq_false_iff_not]
          omega
        · rw [decide_eq_true_eq]
          omega
    · intro hlast
      simp [analyze_due, analyze_due_nontest, hflag, hlast]

/-- A policy at the exact interval boundary, used to witness the amended
C2 statement. -/
def c2_boundary_policy : MaintenanceProperties :=
  { table_name := "t1", should_analyze := false, last_analyzed_on := none,
    days_to_analyze := 0, columns_to_analyze := none,
    should_optimize := true, last_optimized_on := some 0, days_to_optimize := 0,
    should_expire_snapshots := false, retention_days_snapshots := 0,
    should_remove_orphan_files := false, retention_days_orphan_files := 0 }

/-- C2 amended witness: at the boundary, the non-test variant says not due
and the tested variant says due. -/
theorem C2_amended_inversion_witness :
    optimize_due_nontest c2_boundary_policy 0 = false ∧
      optimize_due c2_boundary_policy 0 = true :=
  (((C2_amended_inversion c2_boundary_policy 0).1 rfl).1 0 rfl).2 (by decide)

/-- C7: for every policy whose `should_optimize` flag is false, optimize is
never evaluated as due regardless of `last_optimized_on` and
`days_to_optimize`, and no optimize command is ever issued; analogously for
the other three flags and their associated fields. -/
theorem C7_flag_short_circuit (env : ExecEnv) (now : Int) (p : MaintenanceProperties) :
    (p.should_optimize = false →
      optimize_due p now = false ∧
      (∀ lo d, optimize_due
        { p with last_optimized_on := lo, days_to_optimize := d } now = false) ∧
      (∀ t, Command.optimize t ∉
        (MaintenanceTask.execute env now p).2.map Prod.fst)) ∧
    (p.should_analyze = false →
      analyze_due p now = false ∧
      (∀ la d cols, analyze_due
        { p with last_analyzed_on := la, days_to_analyze := d,
                 columns_to_analyze := cols } now = false) ∧
      (∀ t w, Command.analyze t w ∉
        (MaintenanceTask.execute env now p).2.map Prod.fst)) ∧
    (p.should_remove_orphan_files = false →
      ∀ t rd, Command.remove_orphan_files t rd ∉
        (MaintenanceTask.execute env now p).2.map Prod.fst) ∧
    (p.should_expire_snapshots = false →
      ∀ t rd, Command.expire_snapshots t rd ∉
        (MaintenanceTask.execute env now p).2.map Prod.fst) := by
  refine ⟨?_, ?_, ?_, ?_⟩
  · intro hflag
    refine ⟨by simp [optimize_due, hflag], fun lo d => by simp [optimize_due, hflag], ?_⟩
    intro t hmem
    have hdc := (mem_dc_optimize now p t).mp (execute_mem_dc env now p _ hmem)
    rw [optimize_due, hflag] at hdc
    simp at hdc
  · intro hflag
    refine ⟨by simp [analyze_due, hflag], fun la d cols => by simp [analyze_due, hflag], ?_⟩
    intro t w hmem
    have hdc := (mem_dc_analyze now p t w).mp (execute_mem_dc env now p _ hmem)
    rw [analyze_due, hflag] at hdc
    simp at hdc
  · intro hflag t rd hmem
    have hdc := (mem_dc_orphan now p t rd).mp (execute_mem_dc env now p _ hmem)
    rw [hflag] at hdc
    simp at hdc
  · intro hflag t rd hmem
    have hdc := (mem_dc_expire now p t rd).mp (execute_mem_dc env now p _ hmem)
    rw [hflag] at hdc
    simp at hdc

/-- A policy with every flag off but stale watermarks, used to witness C7. -/
def c7_policy : MaintenanceProperties :=
  { table_name := "t1", should_analyze := false, last_analyzed_on := some (-100),
    days_to_analyze := 0, columns_to_analyze := some ["a"],
    should_optimize := false, last_optimized_on := some (-100), days_to_optimize := 0,
    should_expire_snapshots := false, retention_days_snapshots := 3,
    should_remove_orphan_files := false, retention_days_orphan_files := 3 }

/-- C7 witness: with all flags off, optimize is not due and no optimize
command is issued for `c7_policy`. -/
theorem C7_flag_short_circuit_witness :
    optimize_due c7_policy 0 = false ∧
      Command.optimize "t1" ∉
        (MaintenanceTask.execute env_all_ok 0 c7_policy).2.map Prod.fst :=
  ⟨((C7_flag_short_circuit env_all_ok 0 c7_policy).1 rfl).1,
   ((C7_flag_short_circuit env_all_ok 0 c7_policy).1 rfl).2.2 "t1"⟩

/-- C8: remove-orphan-files and expire-snapshots are due exactly when their
flag is set — independent of `now` and of both watermarks — so with all
commands succeeding they are executed in every cycle in which they are
enabled, including cycles immediately following a cycle where they
succeeded or failed. -/
theorem C8_no_staleness_window (env : ExecEnv) (now : Int) (p : MaintenanceProperties)
    (hconn : env.connectOk = true) (hok : ∀ c, env.cmdOk c = true) :
    (Command.remove_orphan_files p.table_name p.retention_days_orphan_files ∈
        (MaintenanceTask.execute env now p).2.map Prod.fst ↔
      p.should_remove_orphan_files = true) ∧
    (Command.expire_snapshots p.table_name p.retention_days_snapshots ∈
        (MaintenanceTask.execute env now p).2.map Prod.fst ↔
      p.should_expire_snapshots = true) ∧
    (∀ (now' : Int) (lo la : Option Int),
      (Command.remove_orphan_files p.table_name p.retention_days_orphan_files ∈
          (MaintenanceTask.execute env now'
            { p with last_optimized_on := lo, last_analyzed_on := la }).2.map Prod.fst ↔
        p.should_remove_orphan_files = true) ∧
      (Command.expire_snapshots p.table_name p.retention_days_snapshots ∈
          (MaintenanceTask.execute env now'
            { p with last_optimized_on := lo, last_analyzed_on := la }).2.map Prod.fst ↔
        p.should_expire_snapshots = true)) := by
  refine ⟨?_, ?_, ?_⟩
  · rw [execute_trace_ok env now p hconn hok, map_fst_pair_true, mem_dc_orphan]
    simp
  · rw [execute_trace_ok env now p hconn hok, map_fst_pair_true, mem_dc_expire]
    simp
  · intro now' lo la
    constructor
    · rw [execute_trace_ok env now' _ hconn hok, map_fst_pair_true, mem_dc_orphan]
      simp
    · rw [execute_trace_ok env now' _ hconn hok, map_fst_pair_true, mem_dc_expire]
      simp

/-- C8 witness: `sample_p` has both cleanup commands in its trace. -/
theorem C8_no_staleness_window_witness :
    Command.remove_orphan_files "t1" 7 ∈
      (MaintenanceTask.execute env_all_ok 0 sample_p).2.map Prod.fst :=
  (C8_no_staleness_window env_all_ok 0 sample_p rfl (fun _ => rfl)).1.mpr rfl

/-- C9: when analyze is due (and reached, all commands succeeding), the
issued statistics-refresh command carries the `with_columns` clause, which
lists exactly the quoted columns of `columns_to_analyze` when that sequence
is non-empty and is empty (unscoped, all columns) when the sequence is
empty. -/
theorem C9_analyze_scoping (env : ExecEnv) (now : Int) (p : MaintenanceProperties)
    (hconn : env.connectOk = true) (hok : ∀ c, env.cmdOk c = true)
    (hdue : analyze_due p now = true) :
    Command.analyze p.table_name (with_columns_clause p.columns_to_analyze) ∈
      (MaintenanceTask.execute env now p).2.map Prod.fst ∧
    (∀ cols, p.columns_to_analyze = some cols → cols ≠ [] →
      with_columns_clause p.columns_to_analyze =
        "WITH (columns = ARRAY[" ++
          String.intercalate ", " (cols.map quote_col) ++ "])") ∧
    ((p.columns_to_analyze = none ∨ p.columns_to_analyze = some ([] : List String)) →
      with_columns_clause p.columns_to_analyze = "") := by
  refine ⟨?_, ?_, ?_⟩
  · rw [execute_trace_ok env now p hconn hok, map_fst_pair_true, mem_dc_analyze]
    exact ⟨rfl, rfl, hdue⟩
  · intro cols hcols hne
    rw [hcols, with_columns_clause]
    simp [List.length_eq_zero, hne]
  · intro h
    rcases h with h | h <;> rw [h] <;> rfl

/-- C9 witness: `sample_p` (analyze due, columns `["a"]`) has the scoped
analyze command in its trace. -/
theorem C9_analyze_scoping_witness :
    Command.analyze "t1" (with_columns_clause (some ["a"])) ∈
      (MaintenanceTask.execute env_all_ok 0 sample_p).2.map Prod.fst :=
  (C9_analyze_scoping env_all_ok 0 sample_p rfl (fun _ => rfl) rfl).1

/-- C10: in the tested variant, a policy whose `columns_to_analyze` is
absent (`None`) behaves identically on the analyze path to one with an
empty sequence: the same commands are issued with the same outcomes, the
task's success status is the same, and the clause is empty (unscoped) in
both cases. -/
theorem C10_none_columns_like_empty (env : ExecEnv) (now : Int)
    (p : MaintenanceProperties) :
    (MaintenanceTask.execute env now { p with columns_to_analyze := none }).2 =
      (MaintenanceTask.execute env now { p with columns_to_analyze := some [] }).2 ∧
    (task_succeeds env now { p with columns_to_analyze := none } =
      task_succeeds env now { p with columns_to_analyze := some [] }) ∧
    with_columns_clause none = "" ∧
    with_columns_clause (some []) = "" := by
  have hdc : due_commands now { p with columns_to_analyze := none } =
      due_commands now { p with columns_to_analyze := some [] } := rfl
  refine ⟨?_, ?_, rfl, rfl⟩
  · by_cases hc : env.connectOk = true
    · simp [MaintenanceTask.execute, hc, hdc]
    · simp only [Bool.not_eq_true] at hc
      simp [MaintenanceTask.execute, hc]
  · by_cases hc : env.connectOk = true
    · simp only [task_succeeds, MaintenanceTask.execute, hc, if_pos, hdc]
      cases (run_commands env.cmdOk
        (due_commands now { p with columns_to_analyze := some [] })).1 <;> simp
    · simp only [Bool.not_eq_true] at hc
      simp [task_succeeds, MaintenanceTask.execute, hc]

/-- C10 witness at a concrete policy and environment. -/
theorem C10_none_columns_like_empty_witness :
    (MaintenanceTask.execute env_all_ok 0
        { sample_p with columns_to_analyze := none }).2 =
      (MaintenanceTask.execute env_all_ok 0
        { sample_p with columns_to_analyze := some [] }).2 :=
  (C10_none_columns_like_empty env_all_ok 0 sample_p).1

theorem run_maintenance_cons (env : ExecEnv) (now : Int)
    (r : MaintenanceProperties) (rs : List MaintenanceProperties) :
    run_maintenance env now (r :: rs) =
      (match (MaintenanceTask.execute env now r).1 with
       | Except.ok _ => run_maintenance env now rs
       | Except.error e => e :: run_maintenance env now rs) := by
  rw [run_maintenance, run_maintenance, List.filterMap_cons]
  rcases (MaintenanceTask.execute env now r).1 with e | u <;> rfl

/-- C3: every error during a task's execution (connection establishment,
any engine command, or the post-success timestamp update) is caught at the
task boundary and wrapped in a `MaintenanceTaskException` carrying that
table's policy; the task always reaches a terminal state (ok, or exactly
that wrapped failure), and the dispatcher collects every row's outcome
independently of the other rows: splitting the row list splits the
collected failures, so one table's failure cannot prevent another's task
from completing or abort the dispatcher. -/
theorem C3_failure_isolation (env : ExecEnv) (now : Int) (p : MaintenanceProperties)
    (rows1 rows2 : List MaintenanceProperties) :
    (∀ e, (MaintenanceTask.execute env now p).1 = Except.error e →
      e.maintenance_properties = p) ∧
    ((MaintenanceTask.execute env now p).1 = Except.ok () ∨
      (MaintenanceTask.execute env now p).1 =
        Except.error { maintenance_properties := p }) ∧
    run_maintenance env now (rows1 ++ p :: rows2) =
      run_maintenance env now rows1 ++ run_maintenance env now [p] ++
        run_maintenance env now rows2 := by
  refine ⟨?_, execute_ok_or_error env now p, ?_⟩
  · intro e he
    rw [execute_error_payload env now p e he]
  · simp only [run_maintenance, List.filterMap_append]
    rw [List.append_assoc]
    congr 1
    rw [List.filterMap_cons]
    rcases hp : (MaintenanceTask.execute env now p).1 with e | u <;>
      simp [hp, List.filterMap_cons]

/-- The `sample_p` policy renamed to table `tA`, whose optimize command
fails under `env_fail_tA`. -/
def pA : MaintenanceProperties := { sample_p with table_name := "tA" }

/-- C3 witness: with table `tA` failing, the dispatcher's collected
failures over `[pA, sample_p]` split around `sample_p`, whose own task
still completes. -/
theorem C3_failure_isolation_witness :
    run_maintenance env_fail_tA 0 ([pA] ++ sample_p :: []) =
      run_maintenance env_fail_tA 0 [pA] ++ run_maintenance env_fail_tA 0 [sample_p] ++
        run_maintenance env_fail_tA 0 [] :=
  (C3_failure_isolation env_fail_tA 0 sample_p [pA] []).2.2

/-- C4 counterexample: the dispatcher's observable outcome is identical for
an empty cycle and for a cycle with one succeeding task, although the
number of succeeded tasks differs — so `run_maintenance` cannot be
returning a report containing the count of succeeded tasks. -/
theorem C4_counterexample :
    run_maintenance env_all_ok 0 [] = run_maintenance env_all_ok 0 [sample_p] ∧
    count_succeeded env_all_ok 0 [] = 0 ∧
    count_succeeded env_all_ok 0 [sample_p] = 1 := by
  decide

/-- In the sequential model the collected exceptions happen to come out in
row order; only their multiset is meaningful, since the source's
`as_completed` loop yields futures in nondeterministic completion order. -/
theorem run_maintenance_failures_eq (env : ExecEnv) (now : Int)
    (rows : List MaintenanceProperties) :
    run_maintenance env now rows =
      (rows.filter fun r => !(task_succeeds env now r)).map
        (fun r => { maintenance_properties := r }) := by
  induction rows with
  | nil => rfl
  | cons r rs ih =>
    rw [run_maintenance_cons]
    rcases hr : (MaintenanceTask.execute env now r).1 with e | u
    · have he : e = { maintenance_properties := r } :=
        execute_error_payload env now r e hr
      have hts : task_succeeds env now r = false := by rw [task_succeeds, hr]
      rw [List.filter_cons]
      simp only [hts, Bool.not_false, if_pos]
      rw [List.map_cons, he, ih]
    · have hts : task_succeeds env now r = true := by rw [task_succeeds, hr]
      rw [List.filter_cons]
      simp only [hts, Bool.not_true, Bool.false_eq_true, if_false]
      exact ih

/-- C4 (amended): `run_maintenance` produces no aggregated report and no
success count; its observable outcome consists of exactly one caught
`MaintenanceTaskException` per failed task — as a multiset, since the
dispatcher collects futures in unspecified completion order — each carrying
that task's full policy (hence its table name and the failure's policy
detail); succeeded tasks contribute nothing. -/
theorem C4_amended_failure_report (env : ExecEnv) (now : Int)
    (rows : List MaintenanceProperties) :
    List.Perm (run_maintenance env now rows)
      ((rows.filter fun r => !(task_succeeds env now r)).map
        (fun r => { maintenance_properties := r })) := by
  rw [run_maintenance_failures_eq]

/-- C6: within one task the attempted commands follow the fixed order
orphan removal → snapshot expiry → optimize (and its update) → analyze (and
its update): the trace is a prefix of the guarded command sequence, itself
a sublist of the full fixed order; and on any failure nothing further is
attempted — a failed command is always the last element of the trace. -/
theorem C6_fixed_order_fail_fast (env : ExecEnv) (now : Int) (p : MaintenanceProperties) :
    List.Sublist ((MaintenanceTask.execute env now p).2.map Prod.fst) (full_order p) ∧
    (MaintenanceTask.execute env now p).2.map Prod.fst <+: due_commands now p ∧
    (∀ cb ∈ (MaintenanceTask.execute env now p).2, cb.2 = false →
      (MaintenanceTask.execute env now p).2.getLast? = some cb) := by
  refine ⟨?_, execute_trace_fst_le env now p, ?_⟩
  · exact ((execute_trace_fst_le env now p).sublist).trans
      (due_commands_sublist_full now p)
  · intro cb hmem hf
    exact false_mem_is_last (execute_dropLast_true env now p) cb hmem hf

/-- C6 witness: when `pA`'s optimize command fails, the failed command is
the last one attempted (analyze and the watermark updates are not
reached). -/
theorem C6_fixed_order_fail_fast_witness :
    (MaintenanceTask.execute env_fail_tA 0 pA).2.getLast? =
      some (Command.optimize "tA", false) :=
  (C6_fixed_order_fail_fast env_fail_tA 0 pA).2.2
    (Command.optimize "tA", false) (by decide) (by decide)

/-- C5: the only policy-store mutations a task's trace can produce are
writes of `last_optimized_on` / `last_analyzed_on` on rows named by the
task's own `table_name`; a watermark update is issued only when the
operation was due and only immediately after the corresponding action
succeeded; applying the trace to any store deletes no row and changes
exactly the two watermark fields of the rows named `table_name`, setting
them to the write-time current instant `db_now`. -/
theorem C5_frame_effect (env : ExecEnv) (now db_now : Int) (p : MaintenanceProperties)
    (store : List MaintenanceProperties) :
    (∀ t b, (Command.update_last_optimized_on t, b) ∈
        (MaintenanceTask.execute env now p).2 →
      t = p.table_name ∧ optimize_due p now = true) ∧
    (∀ t b, (Command.update_last_analyzed_on t, b) ∈
        (MaintenanceTask.execute env now p).2 →
      t = p.table_name ∧ analyze_due p now = true) ∧
    updates_gated (MaintenanceTask.execute env now p).2 = true ∧
    (apply_trace db_now store (MaintenanceTask.execute env now p).2).length =
      store.length ∧
    apply_trace db_now store (MaintenanceTask.execute env now p).2 =
      store.map (fun r =>
        if r.table_name = p.table_name then
          { r with
            last_optimized_on :=
              if writes_opt p.table_name (MaintenanceTask.execute env now p).2
              then some db_now else r.last_optimized_on,
            last_analyzed_on :=
              if writes_anl p.table_name (MaintenanceTask.execute env now p).2
              then some db_now else r.last_analyzed_on }
        else r) := by
  refine ⟨fun t b h => execute_upd_opt_mem env now p t b h,
    fun t b h => execute_upd_anl_mem env now p t b h,
    execute_gated env now p, apply_trace_length db_now _ store, ?_⟩
  rw [apply_trace_map]
  apply List.map_congr_left
  intro r _
  by_cases hname : r.table_name = p.table_name
  · rw [if_pos hname]
    exact row_apply_own db_now p.table_name _ r
      (fun t b h => (execute_upd_opt_mem env now p t b h).1)
      (fun t b h => (execute_upd_anl_mem env now p t b h).1) hname
  · rw [if_neg hname]
    exact row_apply_other db_now p.table_name _ r
      (fun t b h => (execute_upd_opt_mem env now p t b h).1)
      (fun t b h => (execute_upd_anl_mem env now p t b h).1) hname

/-- C5 witness: applying `sample_p`'s all-success trace to a one-row store
advances exactly its two watermarks to the write-time instant. -/
theorem C5_frame_effect_witness :
    apply_trace 99 [sample_p] (MaintenanceTask.execute env_all_ok 0 sample_p).2 =
      [{ sample_p with last_optimized_on := some 99, last_analyzed_on := some 99 }] := by
  rw [(C5_frame_effect env_all_ok 0 99 sample_p [sample_p]).2.2.2.2]
  decide
